import Mathlib

/-
Verification development for the intent-catalog repository.

Shallow embedding of the Python sources under scripts/:
  - sync_airtable.py   (AirtableSync: prepare_record_fields, sync_entities,
    mark_inactive, sync_plugin_skill_links, _request)
  - extract_catalog.py (to_kebab_case, extract_document, detect_collisions)
  - validate_catalog.py (validate_relationships, validate_id_format)

JSON-ish values are modelled by `Val`; Python dicts by association lists
(`Dict`) with Python-dict insertion semantics (`dinsert`: replace in place
when the key exists, append otherwise; `List.lookup` finds the binding).
Entity array values occurring in the catalog (commands, agents,
trigger_phrases, linked-record ids) are lists of strings, so `Val` carries
`vList : List String`.
-/

namespace IntentCatalog

/-- Values stored in record field maps and entity dicts. -/
inductive Val where
  | vStr : String → Val
  | vBool : Bool → Val
  | vNat : Nat → Val
  | vList : List String → Val
  deriving DecidableEq, Repr

/-- Python dict with string keys, as an association list in insertion order. -/
abbrev Dict := List (String × Val)

/-- Lookup of a key in a dict (`d.get(k)` / `d[k]`). -/
def dlookup (k : String) (d : Dict) : Option Val :=
  List.lookup k d

/-- Python dict assignment `d[k] = v`: replace in place if the key exists,
append at the end otherwise. -/
def dinsert (k : String) (v : Val) : Dict → Dict
  | [] => [(k, v)]
  | (k', v') :: rest => if k' = k then (k, v) :: rest else (k', v') :: dinsert k v rest

/-- Keys of a dict in order. -/
def dkeys (d : Dict) : List String := d.map Prod.fst

/-- Merge a patch into a dict: each binding of the patch is assigned in order
(the semantics of a PATCH write updating only the supplied fields). -/
def dmerge (d patch : Dict) : Dict :=
  patch.foldl (fun acc kv => dinsert kv.1 kv.2 acc) d

@[simp] theorem dlookup_nil (k : String) : dlookup k [] = none := rfl

@[simp] theorem dkeys_nil : dkeys [] = [] := rfl

@[simp] theorem dkeys_cons (k : String) (v : Val) (d : Dict) :
    dkeys ((k, v) :: d) = k :: dkeys d := rfl

theorem dlookup_cons (k k' : String) (v : Val) (d : Dict) :
    dlookup k ((k', v) :: d) = if k = k' then some v else dlookup k d := by
  by_cases h : k = k'
  · simp [dlookup, List.lookup, h]
  · have hb : (k == k') = false := beq_eq_false_iff_ne.mpr h
    simp [dlookup, List.lookup, hb, h]

@[simp] theorem dlookup_dinsert_self (k : String) (v : Val) (d : Dict) :
    dlookup k (dinsert k v d) = some v := by
  induction d with
  | nil => simp [dinsert, dlookup_cons]
  | cons hd tl ih =>
    obtain ⟨k', v'⟩ := hd
    by_cases h : k' = k
    · simp [dinsert, h, dlookup_cons]
    · have h' : ¬ k = k' := fun hh => h hh.symm
      simp [dinsert, h, dlookup_cons, h', ih]

theorem dlookup_dinsert_ne (k k' : String) (v : Val) (d : Dict) (hne : k ≠ k') :
    dlookup k (dinsert k' v d) = dlookup k d := by
  induction d with
  | nil => simp [dinsert, dlookup_cons, hne]
  | cons hd tl ih =>
    obtain ⟨k₀, v₀⟩ := hd
    by_cases h : k₀ = k'
    · subst h
      simp [dinsert, dlookup_cons, hne]
    · simp [dinsert, h, dlookup_cons, ih]

theorem dkeys_dinsert (k : String) (v : Val) (d : Dict) :
    dkeys (dinsert k v d) = if k ∈ dkeys d then dkeys d else dkeys d ++ [k] := by
  induction d with
  | nil => simp [dinsert]
  | cons hd tl ih =>
    obtain ⟨k₀, v₀⟩ := hd
    by_cases h : k₀ = k
    · subst h
      simp [dinsert]
    · have h' : ¬ k = k₀ := fun hh => h hh.symm
      have step : dinsert k v ((k₀, v₀) :: tl) = (k₀, v₀) :: dinsert k v tl := by
        simp [dinsert, h]
      rw [step, dkeys_cons, ih, dkeys_cons]
      by_cases hm : k ∈ dkeys tl
      · simp [hm, h']
      · simp [hm, h']

/-- Python truthiness for the modelled values (`if not entity_id`, `bool(value)`). -/
def pyTruthy : Val → Bool
  | .vStr s => !s.isEmpty
  | .vBool b => b
  | .vNat n => n ≠ 0
  | .vList xs => !xs.isEmpty

/-- Model of `", ".join(str(v) for v in value)` for string-array values. -/
def joinComma (xs : List String) : String :=
  String.intercalate ", " xs

/-! Embedding of `AirtableSync.prepare_record_fields` (sync_airtable.py 164-207).
The per-field schema entry carries `source` (ownership) and `type`; the map of
field name to spec is `schema["tables"][table_name]["fields"]`, passed here
directly as the association list `field_specs`. -/

/-- Per-field schema entry: `{"source": ..., "type": ...}`. -/
structure FieldSpec where
  source : String
  ftype : String
  deriving DecidableEq, Repr

abbrev FieldSpecs := List (String × FieldSpec)

/-- Value coercions applied to a repo-owned value before writing: arrays are
flattened to comma-separated text for text-typed fields, and checkbox fields
coerce the value with Python `bool`. -/
def coerceVal (s : FieldSpec) (v : Val) : Val :=
  let v1 : Val :=
    match v with
    | .vList xs =>
      if s.ftype = "multilineText" ∨ s.ftype = "singleLineText" then
        .vStr (joinComma xs)
      else .vList xs
    | _ => v
  if s.ftype = "checkbox" then .vBool (pyTruthy v1) else v1

/-- One iteration of the field loop of `prepare_record_fields`:
`existing` is the field map of the existing remote record, if any. -/
def prepareFieldStep (entity : Dict) (existing : Option Dict) (fields : Dict)
    (field_name : String) (s : FieldSpec) : Dict :=
  if s.source = "airtable" then
    match existing with
    | some ef =>
      match dlookup field_name ef with
      | some v => dinsert field_name v fields
      | none => fields
    | none => fields
  else if s.source = "sync" then fields
  else if s.source = "computed" then fields
  else
    match dlookup field_name entity with
    | some v => dinsert field_name (coerceVal s v) fields
    | none => fields

/-- Embedding of `AirtableSync.prepare_record_fields`: iterate the schema's
field specs building the outgoing field map, then stamp `last_synced` with the
current timestamp `now`. -/
def prepare_record_fields (entity : Dict) (field_specs : FieldSpecs)
    (existing : Option Dict) (now : String) : Dict :=
  dinsert "last_synced" (.vStr now)
    (field_specs.foldl (fun fields kv => prepareFieldStep entity existing fields kv.1 kv.2) [])

/-- The field loop, named for the proofs below. -/
def prepareFieldsAux (entity : Dict) (existing : Option Dict)
    (field_specs : FieldSpecs) (fields : Dict) : Dict :=
  field_specs.foldl (fun fields kv => prepareFieldStep entity existing fields kv.1 kv.2) fields

theorem prepare_record_fields_eq_aux (entity : Dict) (field_specs : FieldSpecs)
    (existing : Option Dict) (now : String) :
    prepare_record_fields entity field_specs existing now =
      dinsert "last_synced" (.vStr now) (prepareFieldsAux entity existing field_specs []) := rfl

theorem prepareFieldStep_cases (entity : Dict) (existing : Option Dict) (fields : Dict)
    (n : String) (s : FieldSpec) :
    prepareFieldStep entity existing fields n s = fields ∨
    ∃ v, prepareFieldStep entity existing fields n s = dinsert n v fields := by
  unfold prepareFieldStep
  repeat' split
  all_goals first
    | exact Or.inl rfl
    | exact Or.inr ⟨_, rfl⟩

theorem dlookup_prepareFieldStep_ne (entity : Dict) (existing : Option Dict) (fields : Dict)
    (n : String) (s : FieldSpec) (k : String) (hk : k ≠ n) :
    dlookup k (prepareFieldStep entity existing fields n s) = dlookup k fields := by
  rcases prepareFieldStep_cases entity existing fields n s with h | ⟨v, h⟩
  · rw [h]
  · rw [h, dlookup_dinsert_ne _ _ _ _ hk]

theorem dlookup_prepareFieldsAux_notmem (entity : Dict) (existing : Option Dict)
    (field_specs : FieldSpecs) (fields : Dict) (k : String)
    (hk : k ∉ field_specs.map Prod.fst) :
    dlookup k (prepareFieldsAux entity existing field_specs fields) = dlookup k fields := by
  induction field_specs generalizing fields with
  | nil => rfl
  | cons hd tl ih =>
    obtain ⟨n, s⟩ := hd
    have hkn : k ≠ n := by
      intro h
      exact hk (by simp [h])
    have htl : k ∉ tl.map Prod.fst := by
      intro h
      exact hk (by simp [h])
    show dlookup k (prepareFieldsAux entity existing tl (prepareFieldStep entity existing fields n s)) = _
    rw [ih _ htl, dlookup_prepareFieldStep_ne _ _ _ _ _ _ hkn]

theorem dkeys_nodup_dinsert (k : String) (v : Val) (d : Dict)
    (h : (dkeys d).Nodup) : (dkeys (dinsert k v d)).Nodup := by
  rw [dkeys_dinsert]
  by_cases hm : k ∈ dkeys d
  · simpa [hm] using h
  · simp only [hm, if_false]
    exact List.Nodup.append h (List.nodup_singleton k) (by simpa using hm)

theorem dkeys_nodup_prepareFieldsAux (entity : Dict) (existing : Option Dict)
    (field_specs : FieldSpecs) (fields : Dict) (h : (dkeys fields).Nodup) :
    (dkeys (prepareFieldsAux entity existing field_specs fields)).Nodup := by
  induction field_specs generalizing fields with
  | nil => exact h
  | cons hd tl ih =>
    obtain ⟨n, s⟩ := hd
    show (dkeys (prepareFieldsAux entity existing tl (prepareFieldStep entity existing fields n s))).Nodup
    apply ih
    rcases prepareFieldStep_cases entity existing fields n s with hc | ⟨v, hc⟩
    · rw [hc]; exact h
    · rw [hc]; exact dkeys_nodup_dinsert _ _ _ h

theorem dlookup_dmerge_notmem (p : Dict) (d : Dict) (k : String)
    (hk : k ∉ dkeys p) : dlookup k (dmerge d p) = dlookup k d := by
  induction p generalizing d with
  | nil => rfl
  | cons hd tl ih =>
    obtain ⟨k₀, v₀⟩ := hd
    have hkn : k ≠ k₀ := by
      intro h
      exact hk (by simp [h])
    have htl : k ∉ dkeys tl := by
      intro h
      exact hk (by simp [dkeys] at h ⊢; exact Or.inr h)
    show dlookup k (dmerge (dinsert k₀ v₀ d) tl) = _
    rw [ih _ htl, dlookup_dinsert_ne _ _ _ _ hkn]

theorem dlookup_dmerge_of_lookup (p : Dict) (hp : (dkeys p).Nodup) (d : Dict)
    (k : String) (v : Val) (h : dlookup k p = some v) :
    dlookup k (dmerge d p) = some v := by
  induction p generalizing d with
  | nil => simp at h
  | cons hd tl ih =>
    obtain ⟨k₀, v₀⟩ := hd
    rw [dlookup_cons] at h
    by_cases hk : k = k₀
    · subst hk
      simp only [if_pos rfl] at h
      obtain rfl : v₀ = v := by injection h
      have htl : k ∉ dkeys tl := by simpa [dkeys] using hp.not_mem
      show dlookup k (dmerge (dinsert k v₀ d) tl) = some v₀
      rw [dlookup_dmerge_notmem _ _ _ htl, dlookup_dinsert_self]
    · simp only [if_neg hk] at h
      show dlookup k (dmerge (dinsert k₀ v₀ d) tl) = some v
      exact ih (by simpa [dkeys] using hp.of_cons) _ h

theorem dlookup_prepareFieldsAux_protected_some
    (entity : Dict) (ef : Dict) (field_specs : FieldSpecs) (fields : Dict)
    (name : String) (s : FieldSpec) (v : Val)
    (hmem : (name, s) ∈ field_specs)
    (hnodup : (field_specs.map Prod.fst).Nodup)
    (hprot : s.source = "airtable")
    (hval : dlookup name ef = some v) :
    dlookup name (prepareFieldsAux entity (some ef) field_specs fields) = some v := by
  induction field_specs generalizing fields with
  | nil => simp at hmem
  | cons hd tl ih =>
    obtain ⟨n₀, s₀⟩ := hd
    by_cases hn : name = n₀
    · subst hn
      have h2 : (name :: tl.map Prod.fst).Nodup := by simpa using hnodup
      have hnot : name ∉ tl.map Prod.fst := (List.nodup_cons.mp h2).1
      have hs : s = s₀ := by
        rcases List.mem_cons.mp hmem with h | h
        · exact congrArg Prod.snd h
        · exact absurd (List.mem_map_of_mem Prod.fst h) hnot
      subst hs
      have hstep : prepareFieldStep entity (some ef) fields name s = dinsert name v fields := by
        simp [prepareFieldStep, hprot, hval]
      show dlookup name
          (prepareFieldsAux entity (some ef) tl (prepareFieldStep entity (some ef) fields name s)) = some v
      rw [hstep, dlookup_prepareFieldsAux_notmem _ _ _ _ _ hnot, dlookup_dinsert_self]
    · have hmem' : (name, s) ∈ tl := by
        rcases List.mem_cons.mp hmem with h | h
        · exact absurd (congrArg Prod.fst h) hn
        · exact h
      have hnodup' : (tl.map Prod.fst).Nodup := by
        have h2 : (n₀ :: tl.map Prod.fst).Nodup := by simpa using hnodup
        exact (List.nodup_cons.mp h2).2
      exact ih _ hmem' hnodup' 

theorem dlookup_prepareFieldsAux_protected_none
    (entity : Dict) (field_specs : FieldSpecs) (fields : Dict)
    (name : String) (s : FieldSpec)
    (hmem : (name, s) ∈ field_specs)
    (hnodup : (field_specs.map Prod.fst).Nodup)
    (hprot : s.source = "airtable") :
    dlookup name (prepareFieldsAux entity none field_specs fields) = dlookup name fields := by
  induction field_specs generalizing fields with
  | nil => rfl
  | cons hd tl ih =>
    obtain ⟨n₀, s₀⟩ := hd
    by_cases hn : name = n₀
    · subst hn
      have h2 : (name :: tl.map Prod.fst).Nodup := by simpa using hnodup
      have hnot : name ∉ tl.map Prod.fst := (List.nodup_cons.mp h2).1
      have hs : s = s₀ := by
        rcases List.mem_cons.mp hmem with h | h
        · exact congrArg Prod.snd h
        · exact absurd (List.mem_map_of_mem Prod.fst h) hnot
      subst hs
      have hstep : prepareFieldStep entity none fields name s = fields := by
        simp [prepareFieldStep, hprot]
      show dlookup name
          (prepareFieldsAux entity none tl (prepareFieldStep entity none fields name s)) = _
      rw [hstep, dlookup_prepareFieldsAux_notmem _ _ _ _ _ hnot]
    · have hmem' : (name, s) ∈ tl := by
        rcases List.mem_cons.mp hmem with h | h
        · exact absurd (congrArg Prod.fst h) hn
        · exact h
      have hnodup' : (tl.map Prod.fst).Nodup := by
        have h2 : (n₀ :: tl.map Prod.fst).Nodup := by simpa using hnodup
        exact (List.nodup_cons.mp h2).2
      show dlookup name
          (prepareFieldsAux entity none tl (prepareFieldStep entity none fields n₀ s₀)) = _
      rw [ih _ hmem' hnodup', dlookup_prepareFieldStep_ne _ _ _ _ _ _ hn]

/-- C2: for every schema whose field names are unique (a JSON object) and
every field declared remote-owned (`source = "airtable"`, the protected kind;
`last_synced` is the sync-managed timestamp, so a protected field is named
differently), if the existing remote record carries value `v` for the field
then the prepared fields carry `v` unchanged, applying the prepared fields as
a PATCH leaves the remote value at `v`, and with no existing remote record the
protected field is omitted from the prepared fields entirely. -/
theorem prepare_record_fields_protected_preserved
    (entity : Dict) (field_specs : FieldSpecs) (ef : Dict) (now : String)
    (name : String) (s : FieldSpec) (v : Val)
    (hmem : (name, s) ∈ field_specs)
    (hnodup : (field_specs.map Prod.fst).Nodup)
    (hprot : s.source = "airtable")
    (hts : name ≠ "last_synced")
    (hval : dlookup name ef = some v) :
    dlookup name (prepare_record_fields entity field_specs (some ef) now) = some v ∧
    dlookup name (dmerge ef (prepare_record_fields entity field_specs (some ef) now)) = some v ∧
    dlookup name (prepare_record_fields entity field_specs none now) = none := by
  have h1 : dlookup name (prepare_record_fields entity field_specs (some ef) now) = some v := by
    rw [prepare_record_fields_eq_aux, dlookup_dinsert_ne _ _ _ _ hts]
    exact dlookup_prepareFieldsAux_protected_some entity ef field_specs [] name s v
      hmem hnodup hprot hval
  refine ⟨h1, ?_, ?_⟩
  · refine dlookup_dmerge_of_lookup _ ?_ _ _ _ h1
    rw [prepare_record_fields_eq_aux]
    exact dkeys_nodup_dinsert _ _ _
      (dkeys_nodup_prepareFieldsAux _ _ _ _ (by simp))
  · rw [prepare_record_fields_eq_aux, dlookup_dinsert_ne _ _ _ _ hts,
      dlookup_prepareFieldsAux_protected_none entity field_specs [] name s hmem hnodup hprot]
    rfl

/-- Witness for C2 at a concrete schema, entity and remote record: the
protected field `owner_notes` keeps the human-entered value and is omitted
when no remote record exists, even though the local entity carries a value. -/
theorem prepare_record_fields_protected_preserved_witness :
    (dlookup "owner_notes"
      (prepare_record_fields
        [("plugin_id", .vStr "p1"), ("owner_notes", .vStr "local junk")]
        [("owner_notes", ⟨"airtable", "multilineText"⟩),
         ("plugin_id", ⟨"repo", "singleLineText"⟩)]
        (some [("owner_notes", .vStr "keep me")]) "2026-01-01T00:00:00+00:00") =
        some (.vStr "keep me")) ∧
    (dlookup "owner_notes"
      (prepare_record_fields
        [("plugin_id", .vStr "p1"), ("owner_notes", .vStr "local junk")]
        [("owner_notes", ⟨"airtable", "multilineText"⟩),
         ("plugin_id", ⟨"repo", "singleLineText"⟩)]
        none "2026-01-01T00:00:00+00:00") = none) := by
  have h := prepare_record_fields_protected_preserved
    [("plugin_id", .vStr "p1"), ("owner_notes", .vStr "local junk")]
    [("owner_notes", ⟨"airtable", "multilineText"⟩),
     ("plugin_id", ⟨"repo", "singleLineText"⟩)]
    [("owner_notes", .vStr "keep me")] "2026-01-01T00:00:00+00:00"
    "owner_notes" ⟨"airtable", "multilineText"⟩ (.vStr "keep me")
    (by simp) (by simp) rfl (by simp) rfl
  exact ⟨h.1, h.2.2⟩

/-! Embedding of `AirtableSync.mark_inactive` (sync_airtable.py 307-337) and of
the missing-record selection in `sync_entities` (lines 286-290). The remote
client `_request` supports only GET, POST and PATCH (any other method raises
`ValueError`), so the reconciler has no delete operation at all: the only write
the mark-inactive step queues is a PATCH setting `status` to `"inactive"`. -/

/-- A remote Airtable record: record id and field map. -/
structure RemoteRecord where
  rid : String
  fields : Dict
  deriving DecidableEq, Repr

/-- A queued PATCH write: target record id and fields to set. -/
structure Patch where
  rid : String
  fields : Dict
  deriving DecidableEq, Repr

/-- Batch size for the Airtable API (sync_airtable.py line 44). -/
def BATCH_SIZE : Nat := 10

/-- The field map of a mark-inactive write. -/
def statusInactive : Dict := [("status", Val.vStr "inactive")]

/-- Loop of `mark_inactive`: walk the records, skip those whose `status` field
is already `"inactive"`, queue a `status: inactive` patch for the rest, flush
whenever the batch reaches `BATCH_SIZE` (adding the batch length to the
`marked_inactive` counter), and flush the remainder at the end. Returns the
queued patches (flushed batches concatenated in order) and the total counter
increment. -/
def markInactiveGo : List RemoteRecord → List Patch → Nat → List Patch × Nat
  | [], batch, count =>
    if batch.isEmpty then ([], count) else (batch, count + batch.length)
  | r :: rest, batch, count =>
    if dlookup "status" r.fields = some (Val.vStr "inactive") then
      markInactiveGo rest batch count
    else if BATCH_SIZE ≤ (batch ++ [(⟨r.rid, statusInactive⟩ : Patch)]).length then
      ((batch ++ [(⟨r.rid, statusInactive⟩ : Patch)]) ++
        (markInactiveGo rest []
          (count + (batch ++ [(⟨r.rid, statusInactive⟩ : Patch)]).length)).1,
       (markInactiveGo rest []
          (count + (batch ++ [(⟨r.rid, statusInactive⟩ : Patch)]).length)).2)
    else
      markInactiveGo rest (batch ++ [(⟨r.rid, statusInactive⟩ : Patch)]) count

/-- Embedding of `AirtableSync.mark_inactive`. -/
def mark_inactive (records : List RemoteRecord) : List Patch × Nat :=
  markInactiveGo records [] 0

/-- The write plan of the mark-inactive step, batching elided. -/
def inactivePlan (records : List RemoteRecord) : List Patch :=
  records.filterMap fun r =>
    if dlookup "status" r.fields = some (Val.vStr "inactive") then none
    else some ⟨r.rid, statusInactive⟩

theorem markInactiveGo_eq (records : List RemoteRecord) (batch : List Patch) (count : Nat) :
    markInactiveGo records batch count =
      (batch ++ inactivePlan records,
       count + batch.length + (inactivePlan records).length) := by
  induction records generalizing batch count with
  | nil =>
    cases batch with
    | nil => simp [markInactiveGo, inactivePlan]
    | cons b bs => simp [markInactiveGo, inactivePlan]
  | cons r rest ih =>
    simp only [markInactiveGo]
    by_cases hst : dlookup "status" r.fields = some (Val.vStr "inactive")
    · have hplan : inactivePlan (r :: rest) = inactivePlan rest := by
        simp [inactivePlan, hst]
      rw [if_pos hst, ih, hplan]
    · have hplan : inactivePlan (r :: rest) =
          ⟨r.rid, statusInactive⟩ :: inactivePlan rest := by
        simp [inactivePlan, hst]
      rw [if_neg hst]
      by_cases hb : BATCH_SIZE ≤ (batch ++ [(⟨r.rid, statusInactive⟩ : Patch)]).length
      · rw [if_pos hb, ih, hplan]
        simp [List.append_assoc]
        omega
      · rw [if_neg hb, ih, hplan]
        simp [List.append_assoc]
        omega

theorem mark_inactive_eq (records : List RemoteRecord) :
    mark_inactive records = (inactivePlan records, (inactivePlan records).length) := by
  simp [mark_inactive, markInactiveGo_eq]

/-- Selection of the records handed to `mark_inactive` by `sync_entities`:
the fetched records whose primary-field value was not seen in the snapshot
(`missing = set(existing.keys()) - seen_ids`). -/
def missingRecords (existing : List (Val × RemoteRecord)) (seen : List Val) :
    List RemoteRecord :=
  (existing.filter (fun kv => kv.1 ∉ seen)).map Prod.snd

/-- Apply one PATCH write to a table: update the fields of the record with the
matching record id, leave all other records alone. -/
def applyPatch (table : List RemoteRecord) (p : Patch) : List RemoteRecord :=
  table.map fun r =>
    if r.rid = p.rid then { r with fields := dmerge r.fields p.fields } else r

/-- Apply a sequence of PATCH writes in order. -/
def applyPatches (table : List RemoteRecord) (ps : List Patch) : List RemoteRecord :=
  ps.foldl applyPatch table

/-- The effect of a patch sequence on a single record. -/
def recApply (ps : List Patch) (r : RemoteRecord) : RemoteRecord :=
  ps.foldl
    (fun r p => if r.rid = p.rid then { r with fields := dmerge r.fields p.fields } else r) r

theorem recApply_cons (p : Patch) (ps : List Patch) (r : RemoteRecord) :
    recApply (p :: ps) r =
      recApply ps (if r.rid = p.rid then { r with fields := dmerge r.fields p.fields } else r) :=
  rfl

theorem applyPatches_map (table : List RemoteRecord) (ps : List Patch) :
    applyPatches table ps = table.map (recApply ps) := by
  induction ps generalizing table with
  | nil => exact (List.map_id table).symm
  | cons p ps ih =>
    show applyPatches (applyPatch table p) ps = _
    rw [ih, applyPatch, List.map_map]
    rfl

theorem recApply_rid (ps : List Patch) (r : RemoteRecord) :
    (recApply ps r).rid = r.rid := by
  induction ps generalizing r with
  | nil => rfl
  | cons p ps ih =>
    rw [recApply_cons]
    by_cases h : r.rid = p.rid
    · rw [if_pos h, ih]
    · rw [if_neg h]
      exact ih r

theorem recApply_inactive_cases (ps : List Patch) (r : RemoteRecord)
    (hps : ∀ p ∈ ps, p.fields = statusInactive) :
    recApply ps r = r ∨
      dlookup "status" (recApply ps r).fields = some (Val.vStr "inactive") := by
  induction ps generalizing r with
  | nil => exact Or.inl rfl
  | cons p ps ih =>
    have hp : p.fields = statusInactive := hps p (List.mem_cons_self _ _)
    have hps' : ∀ q ∈ ps, q.fields = statusInactive :=
      fun q hq => hps q (List.mem_cons_of_mem _ hq)
    rw [recApply_cons]
    by_cases h : r.rid = p.rid
    · rw [if_pos h]
      have hstat :
          dlookup "status" (dmerge r.fields p.fields) = some (Val.vStr "inactive") := by
        rw [hp]
        exact dlookup_dinsert_self _ _ _
      rcases ih { r with fields := dmerge r.fields p.fields } hps' with hcase | hcase
      · exact Or.inr (by rw [hcase]; exact hstat)
      · exact Or.inr hcase
    · rw [if_neg h]
      exact ih r hps'

theorem recApply_inactive_of_patched (ps : List Patch) (r : RemoteRecord)
    (hps : ∀ p ∈ ps, p.fields = statusInactive)
    (hhit : (∃ p ∈ ps, p.rid = r.rid) ∨
      dlookup "status" r.fields = some (Val.vStr "inactive")) :
    dlookup "status" (recApply ps r).fields = some (Val.vStr "inactive") := by
  induction ps generalizing r with
  | nil =>
    rcases hhit with ⟨p, hp, _⟩ | h
    · simp at hp
    · exact h
  | cons p ps ih =>
    have hp : p.fields = statusInactive := hps p (List.mem_cons_self _ _)
    have hps' : ∀ q ∈ ps, q.fields = statusInactive :=
      fun q hq => hps q (List.mem_cons_of_mem _ hq)
    rw [recApply_cons]
    by_cases h : r.rid = p.rid
    · rw [if_pos h]
      apply ih _ hps'
      refine Or.inr ?_
      show dlookup "status" (dmerge r.fields p.fields) = _
      rw [hp]
      exact dlookup_dinsert_self _ _ _
    · rw [if_neg h]
      apply ih r hps'
      rcases hhit with ⟨q, hq, hqr⟩ | hinact
      · rcases List.mem_cons.mp hq with rfl | hq'
        · exact absurd hqr.symm h
        · exact Or.inl ⟨q, hq', hqr⟩
      · exact Or.inr hinact

theorem inactivePlan_fields (records : List RemoteRecord) (p : Patch)
    (hp : p ∈ inactivePlan records) : p.fields = statusInactive := by
  rcases List.mem_filterMap.mp hp with ⟨r, _, hr⟩
  by_cases h : dlookup "status" r.fields = some (Val.vStr "inactive")
  · simp [h] at hr
  · simp [h] at hr
    rw [← hr]

theorem inactivePlan_mem (records : List RemoteRecord) (r : RemoteRecord)
    (hr : r ∈ records)
    (hst : ¬ dlookup "status" r.fields = some (Val.vStr "inactive")) :
    (⟨r.rid, statusInactive⟩ : Patch) ∈ inactivePlan records := by
  apply List.mem_filterMap.mpr
  exact ⟨r, hr, by simp [hst]⟩

/-- C3: soft delete, never hard delete. For a remote record whose primary-field
value is absent from the snapshot (`(k, r)` fetched, `k` not seen), the
mark-inactive step queues only PATCH writes of `status: inactive`, applying the
queued writes leaves the table's record count unchanged, and afterwards the
record still exists (same record id) with status `inactive`. The remote client
has no delete operation (`_request` accepts only GET, POST and PATCH). -/
theorem sync_soft_delete
    (existing : List (Val × RemoteRecord)) (seen : List Val)
    (table : List RemoteRecord) (k : Val) (r : RemoteRecord)
    (hmem : (k, r) ∈ existing) (hmiss : k ∉ seen) (hr : r ∈ table) :
    (∀ p ∈ (mark_inactive (missingRecords existing seen)).1, p.fields = statusInactive) ∧
    (applyPatches table (mark_inactive (missingRecords existing seen)).1).length =
      table.length ∧
    ∃ r' ∈ applyPatches table (mark_inactive (missingRecords existing seen)).1,
      r'.rid = r.rid ∧ dlookup "status" r'.fields = some (Val.vStr "inactive") := by
  have hplan : (mark_inactive (missingRecords existing seen)).1 =
      inactivePlan (missingRecords existing seen) := by
    rw [mark_inactive_eq]
  rw [hplan]
  have hfields : ∀ p ∈ inactivePlan (missingRecords existing seen),
      p.fields = statusInactive :=
    fun p hp => inactivePlan_fields _ p hp
  refine ⟨hfields, ?_, ?_⟩
  · rw [applyPatches_map, List.length_map]
  · have hrm : r ∈ missingRecords existing seen := by
      have hfil : (k, r) ∈ existing.filter (fun kv => kv.1 ∉ seen) :=
        List.mem_filter.mpr ⟨hmem, by simpa using hmiss⟩
      exact List.mem_map_of_mem Prod.snd hfil
    refine ⟨recApply (inactivePlan (missingRecords existing seen)) r, ?_,
      recApply_rid _ r, ?_⟩
    · rw [applyPatches_map]
      exact List.mem_map_of_mem _ hr
    · by_cases hst : dlookup "status" r.fields = some (Val.vStr "inactive")
      · exact recApply_inactive_of_patched _ r hfields (Or.inr hst)
      · exact recApply_inactive_of_patched _ r hfields
          (Or.inl ⟨⟨r.rid, statusInactive⟩, inactivePlan_mem _ r hrm hst, rfl⟩)

/-- Witness for C3: document `d9` is active remotely and absent from the
snapshot; after the mark-inactive writes its record still exists with
status `inactive` and the table size is unchanged. -/
theorem sync_soft_delete_witness :
    (∀ p ∈ (mark_inactive (missingRecords
        [(Val.vStr "d9", ⟨"recA", [("doc_id", Val.vStr "d9"), ("status", Val.vStr "active")]⟩)]
        [])).1, p.fields = statusInactive) ∧
    (applyPatches [⟨"recA", [("doc_id", Val.vStr "d9"), ("status", Val.vStr "active")]⟩]
      (mark_inactive (missingRecords
        [(Val.vStr "d9", ⟨"recA", [("doc_id", Val.vStr "d9"), ("status", Val.vStr "active")]⟩)]
        [])).1).length = 1 ∧
    ∃ r' ∈ applyPatches [⟨"recA", [("doc_id", Val.vStr "d9"), ("status", Val.vStr "active")]⟩]
      (mark_inactive (missingRecords
        [(Val.vStr "d9", ⟨"recA", [("doc_id", Val.vStr "d9"), ("status", Val.vStr "active")]⟩)]
        [])).1,
      r'.rid = "recA" ∧ dlookup "status" r'.fields = some (Val.vStr "inactive") :=
  sync_soft_delete
    [(Val.vStr "d9", ⟨"recA", [("doc_id", Val.vStr "d9"), ("status", Val.vStr "active")]⟩)]
    [] [⟨"recA", [("doc_id", Val.vStr "d9"), ("status", Val.vStr "active")]⟩]
    (Val.vStr "d9") ⟨"recA", [("doc_id", Val.vStr "d9"), ("status", Val.vStr "active")]⟩
    (by simp) (by simp) (by simp)

/-- C4: idempotent inactivation. A record whose status is already `inactive`
is skipped, so when every missing record is already inactive (the second run
of the same missing-entity scenario) no write is queued and the
`marked_inactive` counter increment is zero. -/
theorem mark_inactive_idempotent
    (records : List RemoteRecord)
    (hall : ∀ r ∈ records, dlookup "status" r.fields = some (Val.vStr "inactive")) :
    mark_inactive records = ([], 0) := by
  have hplan : inactivePlan records = [] := by
    apply List.filterMap_eq_nil_iff.mpr
    intro r hr
    simp [hall r hr]
  rw [mark_inactive_eq, hplan]
  rfl

/-- Witness for C4: two already-inactive records produce no write and a zero
counter increment. -/
theorem mark_inactive_idempotent_witness :
    mark_inactive
      [⟨"recA", [("status", Val.vStr "inactive")]⟩,
       ⟨"recB", [("doc_id", Val.vStr "d2"), ("status", Val.vStr "inactive")]⟩] = ([], 0) := by
  apply mark_inactive_idempotent
  intro r hr
  simp at hr
  rcases hr with rfl | rfl <;> decide

/-! Embedding of the statistics update of `AirtableSync.sync_entities`
(sync_airtable.py 242-298): `seen_ids` collects the truthy entity ids in the
entity loop; the final loop counts each seen id as `updated` when a remote
record with that primary-field value exists and as `created` otherwise. -/

/-- Per-table sync statistics (`SyncStats`, sync_airtable.py 47-54). -/
structure SyncStats where
  created : Nat := 0
  updated : Nat := 0
  unchanged : Nat := 0
  marked_inactive : Nat := 0
  errors : List String := []
  deriving DecidableEq, Repr

/-- The ids seen in the entity loop of `sync_entities`: `entity.get(id_field)`
when truthy, collected as a set (modelled as a deduplicated list in first-seen
order). -/
def seenIds (entities : List Dict) (id_field : String) : List Val :=
  entities.foldl
    (fun acc e =>
      match dlookup id_field e with
      | some v => if pyTruthy v then (if v ∈ acc then acc else acc ++ [v]) else acc
      | none => acc)
    []

/-- The counter update of `sync_entities` (lines 292-298): every seen id whose
primary-field value already has a remote record increments `updated`, every
other seen id increments `created`; no branch touches `unchanged`. -/
def syncStatsUpdate (seen : List Val) (existingKeys : List Val) (s : SyncStats) : SyncStats :=
  seen.foldl
    (fun st k =>
      if k ∈ existingKeys then { st with updated := st.updated + 1 }
      else { st with created := st.created + 1 })
    s

/-- C1: re-running the reconciler on an already-synced record does not report
it as unchanged. Concretely: an entity whose prepared field values are equal
to the existing remote record's field values is still counted as `updated`,
and the `unchanged` counter is never incremented by any code path of
`sync_entities` (third conjunct). The spec's per-table counts therefore do not
distinguish unchanged records from updated ones. -/
theorem sync_entities_counts_synced_as_updated :
    (prepare_record_fields
        [("plugin_id", Val.vStr "p1"), ("name", Val.vStr "P One")]
        [("plugin_id", ⟨"repo", "singleLineText"⟩), ("name", ⟨"repo", "singleLineText"⟩)]
        (some [("plugin_id", Val.vStr "p1"), ("name", Val.vStr "P One"),
               ("last_synced", Val.vStr "2026-01-01T00:00:00+00:00")])
        "2026-01-01T00:00:00+00:00" =
      [("plugin_id", Val.vStr "p1"), ("name", Val.vStr "P One"),
       ("last_synced", Val.vStr "2026-01-01T00:00:00+00:00")]) ∧
    (syncStatsUpdate
        (seenIds [[("plugin_id", Val.vStr "p1"), ("name", Val.vStr "P One")]] "plugin_id")
        [Val.vStr "p1"] {} =
      { created := 0, updated := 1, unchanged := 0, marked_inactive := 0, errors := [] }) ∧
    (∀ (seen existingKeys : List Val) (s : SyncStats),
      (syncStatsUpdate seen existingKeys s).unchanged = s.unchanged) := by
  refine ⟨by decide, by decide, ?_⟩
  intro seen existingKeys s
  induction seen generalizing s with
  | nil => rfl
  | cons kk rest ih =>
    show (syncStatsUpdate rest existingKeys
      (if kk ∈ existingKeys then { s with updated := s.updated + 1 }
       else { s with created := s.created + 1 })).unchanged = s.unchanged
    by_cases h : kk ∈ existingKeys
    · rw [if_pos h]
      exact ih _
    · rw [if_neg h]
      exact ih _

/-! Embedding of `AirtableSync._request` (sync_airtable.py 77-109): a retry
loop of at most 5 attempts. A 429 response sleeps for the parsed `Retry-After`
header (30 when absent) and retries; any other status `>= 400` raises
immediately with the status code and the `error.message` of the parsed JSON
body when present, else the raw response text; a success returns the parsed
body. Exhausting the 5 attempts raises "Max retries exceeded". -/

/-- An HTTP response as observed by `_request`: status code, parsed
`Retry-After` header (none when absent), raw body text, the `error.message`
extracted from the JSON body when the body parses to an object carrying one
(the try/except block), and the parsed JSON body for success responses. -/
structure Response where
  status : Nat
  retryAfter : Option Nat
  text : String
  errorMessage : Option String
  body : Dict

/-- Outcome of `_request`: the parsed body, an API-error exception carrying
status and message, or the exhausted-retries exception. -/
inductive ReqResult where
  | ok : Dict → ReqResult
  | apiError : Nat → String → ReqResult
  | maxRetries : ReqResult
  deriving DecidableEq, Repr

/-- The retry loop of `_request`: `resp i` is the response observed on the
i-th attempt (0-based), `fuel` the remaining attempts of `range(5)`, `sleeps`
the backoff sleeps performed so far (most recent first). Returns the sleeps in
chronological order and the outcome. -/
def requestAux (resp : Nat → Response) (attempt : Nat) (fuel : Nat)
    (sleeps : List Nat) : List Nat × ReqResult :=
  match fuel with
  | 0 => (sleeps.reverse, .maxRetries)
  | fuel + 1 =>
    if (resp attempt).status = 429 then
      requestAux resp (attempt + 1) fuel ((resp attempt).retryAfter.getD 30 :: sleeps)
    else if 400 ≤ (resp attempt).status then
      (sleeps.reverse,
       .apiError (resp attempt).status ((resp attempt).errorMessage.getD (resp attempt).text))
    else
      (sleeps.reverse, .ok (resp attempt).body)

/-- Embedding of `AirtableSync._request` over the stream of responses. -/
def pyRequest (resp : Nat → Response) : List Nat × ReqResult :=
  requestAux resp 0 5 []

/-- C8: retry policy of the remote client. Rate-limit (429) responses cause a
sleep of the server-provided `Retry-After` delay (30 when absent) and a retry,
bounded by 5 attempts with the fatal max-retries error when all are 429; the
first non-429 response ends the loop immediately: status `>= 400` is a fatal
API error carrying the status code and server message (no retry), and a
success returns the parsed body. -/
theorem request_retry_policy (resp : Nat → Response) :
    ((∀ i, i < 5 → (resp i).status = 429) →
      pyRequest resp =
        ((List.range 5).map (fun i => (resp i).retryAfter.getD 30), .maxRetries)) ∧
    (∀ j, j < 5 → (∀ i, i < j → (resp i).status = 429) → (resp j).status ≠ 429 →
      400 ≤ (resp j).status →
      pyRequest resp =
        ((List.range j).map (fun i => (resp i).retryAfter.getD 30),
         .apiError (resp j).status ((resp j).errorMessage.getD (resp j).text))) ∧
    (∀ j, j < 5 → (∀ i, i < j → (resp i).status = 429) → (resp j).status ≠ 429 →
      (resp j).status < 400 →
      pyRequest resp =
        ((List.range j).map (fun i => (resp i).retryAfter.getD 30), .ok (resp j).body)) := by
  refine ⟨?_, ?_, ?_⟩
  · intro h
    have h0 := h 0 (by omega)
    have h1 := h 1 (by omega)
    have h2 := h 2 (by omega)
    have h3 := h 3 (by omega)
    have h4 := h 4 (by omega)
    simp [pyRequest, requestAux, h0, h1, h2, h3, h4, List.range_succ]
  · intro j hj hpre hne hge
    have hge' : (400 ≤ (resp j).status) = True := eq_true hge
    interval_cases j
    · simp [pyRequest, requestAux, hne, hge']
    · have h0 := hpre 0 (by omega)
      simp [pyRequest, requestAux, h0, hne, hge', List.range_succ]
    · have h0 := hpre 0 (by omega)
      have h1 := hpre 1 (by omega)
      simp [pyRequest, requestAux, h0, h1, hne, hge', List.range_succ]
    · have h0 := hpre 0 (by omega)
      have h1 := hpre 1 (by omega)
      have h2 := hpre 2 (by omega)
      simp [pyRequest, requestAux, h0, h1, h2, hne, hge', List.range_succ]
    · have h0 := hpre 0 (by omega)
      have h1 := hpre 1 (by omega)
      have h2 := hpre 2 (by omega)
      have h3 := hpre 3 (by omega)
      simp [pyRequest, requestAux, h0, h1, h2, h3, hne, hge', List.range_succ]
  · intro j hj hpre hne hlt
    have hnge : ¬ 400 ≤ (resp j).status := by omega
    interval_cases j
    · simp [pyRequest, requestAux, hne, hnge]
    · have h0 := hpre 0 (by omega)
      simp [pyRequest, requestAux, h0, hne, hnge, List.range_succ]
    · have h0 := hpre 0 (by omega)
      have h1 := hpre 1 (by omega)
      simp [pyRequest, requestAux, h0, h1, hne, hnge, List.range_succ]
    · have h0 := hpre 0 (by omega)
      have h1 := hpre 1 (by omega)
      have h2 := hpre 2 (by omega)
      simp [pyRequest, requestAux, h0, h1, h2, hne, hnge, List.range_succ]
    · have h0 := hpre 0 (by omega)
      have h1 := hpre 1 (by omega)
      have h2 := hpre 2 (by omega)
      have h3 := hpre 3 (by omega)
      simp [pyRequest, requestAux, h0, h1, h2, h3, hne, hnge, List.range_succ]

/-- Witness for C8: a 429 with `Retry-After: 7` followed by a 500 carrying a
JSON error message sleeps once for 7 seconds and fails immediately with the
status and message, without further retries. -/
theorem request_retry_policy_witness :
    pyRequest (fun i => if i = 0 then ⟨429, some 7, "", none, []⟩
      else ⟨500, none, "boom", some "server broke", []⟩) =
      ([7], .apiError 500 "server broke") := by
  have h := (request_retry_policy (fun i => if i = 0 then ⟨429, some 7, "", none, []⟩
      else ⟨500, none, "boom", some "server broke", []⟩)).2.1 1 (by omega)
    (by
      intro i hi
      interval_cases i
      rfl)
    (by decide) (by decide)
  simpa using h

/-! Embedding of `AirtableSync.sync_plugin_skill_links` (sync_airtable.py
339-412). The loop filters the snapshot's relationships to
plugin-to-skill edges, builds for each the composite key
`plugin_id::skill_id::relation_type` (`link_id`, the primary field of the
PluginSkillLinks table) and the outgoing field map, and upserts the record
under that key. The remote link table is modelled keyed by `link_id`, the
declared upsert key of the link tables (`fetch_existing_records` keys
existing records by `link_id` and a record carrying an existing id updates
that record in place); batches of `BATCH_SIZE` only group consecutive writes
and preserve their order, so the net effect is the in-order fold of the
single-record upserts. -/

/-- A relationship entry of the catalog; the fields are read with `.get`, so
each is optional (a Python f-string renders a missing value as `"None"`). -/
structure Relationship where
  source_type : Option String
  source_id : Option String
  target_type : Option String
  target_id : Option String
  relation_type : Option String
  confidence : Option String
  deriving DecidableEq, Repr

/-- Python `f"{x}"` of an optional string. -/
def pyShowOpt : Option String → String
  | some s => s
  | none => "None"

/-- A field value that may be Python `None` (JSON null). -/
inductive NVal where
  | val : Val → NVal
  | null : NVal
  deriving DecidableEq, Repr

/-- Field map with possibly-null values, for the link records. -/
abbrev NDict := List (String × NVal)

/-- The composite upsert key of a plugin-skill link:
`f"{plugin_id}::{skill_id}::{relation_type}"`. -/
def link_id (rel : Relationship) : String :=
  pyShowOpt rel.source_id ++ "::" ++ pyShowOpt rel.target_id ++ "::" ++
    pyShowOpt rel.relation_type

/-- Lookup of an optional key in an id mapping (`plugin_ids.get(plugin_id)`). -/
def lookupStr (o : Option String) (m : List (String × String)) : Option String :=
  match o with
  | some s => List.lookup s m
  | none => none

/-- The outgoing field map of one plugin-skill link record. -/
def buildLinkFields (rel : Relationship) (plugin_ids skill_ids : List (String × String))
    (now : String) : NDict :=
  let base : NDict :=
    [("link_id", .val (.vStr (link_id rel))),
     ("relation_type",
       match rel.relation_type with
       | some s => .val (.vStr s)
       | none => .null),
     ("confidence", .val (.vStr (rel.confidence.getD "inferred"))),
     ("last_synced", .val (.vStr now))]
  let base1 : NDict :=
    match lookupStr rel.source_id plugin_ids with
    | some rid => if rid.isEmpty then base else base ++ [("plugin", .val (.vList [rid]))]
    | none => base
  match lookupStr rel.target_id skill_ids with
  | some rid => if rid.isEmpty then base1 else base1 ++ [("skill", .val (.vList [rid]))]
  | none => base1

/-- The plugin-to-skill filter of the relationship list (lines 349-352). -/
def pluginSkillLinks (relationships : List Relationship) : List Relationship :=
  relationships.filter
    (fun r => r.source_type = some "plugin" ∧ r.target_type = some "skill")

/-- Remote state of a link table, keyed by the primary field `link_id`. -/
abbrev LinkTable := List (String × NDict)

/-- Keys of a keyed table, in order. -/
def keysOf {β : Type} (m : List (String × β)) : List String := m.map Prod.fst

/-- Upsert under a key: replace the record carrying the key when it exists,
append a new record otherwise. -/
def upsertKeyed {β : Type} (k : String) (v : β) : List (String × β) → List (String × β)
  | [] => [(k, v)]
  | (k', v') :: rest => if k' = k then (k, v) :: rest else (k', v') :: upsertKeyed k v rest

/-- Number of records of a keyed table carrying a given key. -/
def countKey {β : Type} (k : String) (m : List (String × β)) : Nat :=
  (m.filter (fun kv => kv.1 = k)).length

theorem keysOf_upsertKeyed {β : Type} (k : String) (v : β) (m : List (String × β)) :
    keysOf (upsertKeyed k v m) = if k ∈ keysOf m then keysOf m else keysOf m ++ [k] := by
  induction m with
  | nil => simp [upsertKeyed, keysOf]
  | cons hd tl ih =>
    obtain ⟨k₀, v₀⟩ := hd
    by_cases h : k₀ = k
    · subst h
      simp [upsertKeyed, keysOf]
    · have h' : ¬ k = k₀ := fun hh => h hh.symm
      have step : upsertKeyed k v ((k₀, v₀) :: tl) = (k₀, v₀) :: upsertKeyed k v tl := by
        simp [upsertKeyed, h]
      rw [step]
      show k₀ :: keysOf (upsertKeyed k v tl) = _
      rw [ih]
      by_cases hm : k ∈ List.map Prod.fst tl
      · simp [keysOf, hm, h']
      · simp [keysOf, hm, h']

theorem mem_keysOf_upsertKeyed {β : Type} (k : String) (v : β) (m : List (String × β)) :
    k ∈ keysOf (upsertKeyed k v m) := by
  rw [keysOf_upsertKeyed]
  by_cases hm : k ∈ keysOf m
  · simp [hm]
  · simp [hm]

theorem mem_keysOf_upsertKeyed_of_mem {β : Type} (k k' : String) (v : β)
    (m : List (String × β)) (h : k ∈ keysOf m) : k ∈ keysOf (upsertKeyed k' v m) := by
  rw [keysOf_upsertKeyed]
  by_cases hm : k' ∈ keysOf m
  · simpa [hm]
  · simp [hm, h]

theorem nodup_keysOf_upsertKeyed {β : Type} (k : String) (v : β) (m : List (String × β))
    (h : (keysOf m).Nodup) : (keysOf (upsertKeyed k v m)).Nodup := by
  rw [keysOf_upsertKeyed]
  by_cases hm : k ∈ keysOf m
  · simpa [hm] using h
  · simp only [hm, if_false]
    exact List.Nodup.append h (List.nodup_singleton k) (by simpa using hm)

theorem countKey_eq_one_of_mem {β : Type} (k : String) (m : List (String × β))
    (hnd : (keysOf m).Nodup) (hk : k ∈ keysOf m) : countKey k m = 1 := by
  induction m with
  | nil => simp [keysOf] at hk
  | cons hd tl ih =>
    obtain ⟨k₀, v₀⟩ := hd
    have hnd' : (keysOf tl).Nodup := by
      have : (k₀ :: keysOf tl).Nodup := hnd
      exact (List.nodup_cons.mp this).2
    by_cases h : k₀ = k
    · subst h
      have hnot : k₀ ∉ keysOf tl := by
        have : (k₀ :: keysOf tl).Nodup := hnd
        exact (List.nodup_cons.mp this).1
      have hzero : countKey k₀ tl = 0 := by
        simp only [countKey, List.length_eq_zero, List.filter_eq_nil_iff]
        intro kv hkv
        simp only [decide_eq_true_eq]
        intro hEq
        exact hnot (hEq ▸ List.mem_map_of_mem Prod.fst hkv)
      simp [countKey, List.filter] at hzero ⊢
      simpa [countKey] using hzero
    · have hk' : k ∈ keysOf tl := by
        have : k ∈ k₀ :: keysOf tl := hk
        rcases List.mem_cons.mp this with hEq | hm
        · exact absurd hEq.symm h
        · exact hm
      have := ih hnd' hk'
      simpa [countKey, List.filter, h] using this

theorem upsertKeyed_cons_ne {β : Type} (k k₀ : String) (v v₀ : β)
    (tl : List (String × β)) (h : ¬ k₀ = k) :
    upsertKeyed k v ((k₀, v₀) :: tl) = (k₀, v₀) :: upsertKeyed k v tl := by
  simp [upsertKeyed, h]

/-- The loop of `sync_plugin_skill_links` applied to the remote link table:
each filtered relationship upserts its record under its composite key. -/
def syncLinksApply (state : LinkTable) (links : List Relationship)
    (plugin_ids skill_ids : List (String × String)) (now : String) : LinkTable :=
  links.foldl
    (fun st rel => upsertKeyed (link_id rel) (buildLinkFields rel plugin_ids skill_ids now) st)
    state

/-- Embedding of `AirtableSync.sync_plugin_skill_links`: the net effect on the
remote link table. -/
def sync_plugin_skill_links (state : LinkTable) (relationships : List Relationship)
    (plugin_ids skill_ids : List (String × String)) (now : String) : LinkTable :=
  syncLinksApply state (pluginSkillLinks relationships) plugin_ids skill_ids now

theorem syncLinksApply_cons (state : LinkTable) (r : Relationship)
    (rest : List Relationship) (plugin_ids skill_ids : List (String × String))
    (now : String) :
    syncLinksApply state (r :: rest) plugin_ids skill_ids now =
      syncLinksApply (upsertKeyed (link_id r) (buildLinkFields r plugin_ids skill_ids now) state)
        rest plugin_ids skill_ids now := rfl

theorem nodup_keysOf_syncLinksApply (state : LinkTable) (links : List Relationship)
    (plugin_ids skill_ids : List (String × String)) (now : String)
    (h : (keysOf state).Nodup) :
    (keysOf (syncLinksApply state links plugin_ids skill_ids now)).Nodup := by
  induction links generalizing state with
  | nil => exact h
  | cons rel rest ih =>
    exact ih _ (nodup_keysOf_upsertKeyed _ _ _ h)

theorem mem_keysOf_syncLinksApply_of_mem (state : LinkTable) (links : List Relationship)
    (plugin_ids skill_ids : List (String × String)) (now : String) (k : String)
    (h : k ∈ keysOf state) :
    k ∈ keysOf (syncLinksApply state links plugin_ids skill_ids now) := by
  induction links generalizing state with
  | nil => exact h
  | cons rel rest ih =>
    exact ih _ (mem_keysOf_upsertKeyed_of_mem _ _ _ _ h)

theorem mem_keysOf_syncLinksApply (state : LinkTable) (links : List Relationship)
    (plugin_ids skill_ids : List (String × String)) (now : String)
    (rel : Relationship) (h : rel ∈ links) :
    link_id rel ∈ keysOf (syncLinksApply state links plugin_ids skill_ids now) := by
  induction links generalizing state with
  | nil => simp at h
  | cons r rest ih =>
    rcases List.mem_cons.mp h with rfl | hmem
    · rw [syncLinksApply_cons]
      exact mem_keysOf_syncLinksApply_of_mem _ _ _ _ _ _ (mem_keysOf_upsertKeyed _ _ _)
    · rw [syncLinksApply_cons]
      exact ih _ hmem

/-- C9: relationship upsert collapse. Every plugin-to-skill relationship is
keyed by the composite identifier `source_id::target_id::relation_type`
(joined with the fixed separator `::`, first conjunct, by definition), and
that key is the upsert key: after the sync loop the remote link table holds
exactly one record under the key of any synced relationship, so two
relationships with identical (source_id, target_id, relation_type) collapse
into one record (the later upsert's field map, i.e. last write wins). -/
theorem sync_plugin_skill_links_collapse
    (state : LinkTable) (relationships : List Relationship)
    (plugin_ids skill_ids : List (String × String)) (now : String)
    (hnodup : (keysOf state).Nodup)
    (rel : Relationship) (hrel : rel ∈ relationships)
    (hsrc : rel.source_type = some "plugin") (htgt : rel.target_type = some "skill") :
    link_id rel = pyShowOpt rel.source_id ++ "::" ++ pyShowOpt rel.target_id ++ "::" ++
      pyShowOpt rel.relation_type ∧
    countKey (link_id rel)
      (sync_plugin_skill_links state relationships plugin_ids skill_ids now) = 1 := by
  refine ⟨rfl, ?_⟩
  have hfil : rel ∈ pluginSkillLinks relationships :=
    List.mem_filter.mpr ⟨hrel, by simp [hsrc, htgt]⟩
  exact countKey_eq_one_of_mem _ _
    (nodup_keysOf_syncLinksApply _ _ _ _ _ hnodup)
    (mem_keysOf_syncLinksApply _ _ _ _ _ _ hfil)

/-- Witness for C9: two relationships with identical
(source_id, target_id, relation_type) against an empty remote table yield
exactly one record under the composite key `p1::s1::ships_with`. -/
theorem sync_plugin_skill_links_collapse_witness :
    countKey "p1::s1::ships_with"
      (sync_plugin_skill_links []
        [⟨some "plugin", some "p1", some "skill", some "s1", some "ships_with", some "inferred"⟩,
         ⟨some "plugin", some "p1", some "skill", some "s1", some "ships_with", some "declared"⟩]
        [("p1", "recP")] [("s1", "recS")] "2026-01-01T00:00:00+00:00") = 1 := by
  have h := sync_plugin_skill_links_collapse []
    [⟨some "plugin", some "p1", some "skill", some "s1", some "ships_with", some "inferred"⟩,
     ⟨some "plugin", some "p1", some "skill", some "s1", some "ships_with", some "declared"⟩]
    [("p1", "recP")] [("s1", "recS")] "2026-01-01T00:00:00+00:00"
    (by simp [keysOf])
    ⟨some "plugin", some "p1", some "skill", some "s1", some "ships_with", some "inferred"⟩
    (by simp) rfl rfl
  simpa using h.2

/-! Embedding of the entity views used by `validate_catalog.py` and
`detect_collisions` (extract_catalog.py 411-454): each catalog entity is
projected onto the fields those functions read — the entity's id and its
`source_repo`. -/

/-- A catalog plugin entry, projected onto the fields the validator and the
collision detector read. -/
structure Plugin where
  plugin_id : String
  source_repo : String
  deriving DecidableEq, Repr

/-- A catalog skill entry, same projection. -/
structure Skill where
  skill_id : String
  source_repo : String
  deriving DecidableEq, Repr

/-- A catalog document entry, same projection. -/
structure Document where
  doc_id : String
  source_repo : String
  deriving DecidableEq, Repr

/-- The catalog aggregate as read by the validator and collision detector. -/
structure Catalog where
  plugins : List Plugin
  skills : List Skill
  documents : List Document
  relationships : List Relationship
  deriving DecidableEq, Repr

/-! Embedding of `validate_catalog.py`. `validate_catalog` loads the JSON
Schema (structural checks, which can only add further errors) and then runs
the three semantic validators; `is_valid` is `len(errors) == 0`, so a
non-empty semantic error list makes validation fail. -/

/-- Character class `[a-z0-9]` of the kebab pattern (ASCII). -/
def isLowerAlnum (c : Char) : Bool := c.isLower || c.isDigit

/-- Tail of the two-or-more-character alternative: `[a-z0-9-]*[a-z0-9]`. -/
def kebabTail : List Char → Bool
  | [] => false
  | [c] => isLowerAlnum c
  | c :: rest => (isLowerAlnum c || c = '-') && kebabTail rest

/-- Full-string match of `^[a-z0-9][a-z0-9-]*[a-z0-9]$|^[a-z0-9]$`. -/
def kebabCore : List Char → Bool
  | [] => false
  | [c] => isLowerAlnum c
  | c :: rest => isLowerAlnum c && kebabTail rest

/-- Model of `kebab_pattern.match(s)` (validate_catalog.py line 103): the
pattern is anchored on both sides; Python `$` also matches just before one
trailing newline. -/
def kebab_match (s : String) : Bool :=
  kebabCore s.toList ||
    (match s.toList.getLast? with
     | some c => c = '\n' && kebabCore s.toList.dropLast
     | none => false)

/-- Embedding of `validate_id_format` (validate_catalog.py 100-113): only
plugin ids and skill ids are checked against the kebab pattern; document ids
are not inspected by the loop at all. -/
def validate_id_format (c : Catalog) : List String :=
  (c.plugins.filterMap fun p =>
    if kebab_match p.plugin_id then none
    else some ("Invalid plugin_id format: " ++ p.plugin_id)) ++
  (c.skills.filterMap fun s =>
    if kebab_match s.skill_id then none
    else some ("Invalid skill_id format: " ++ s.skill_id))

/-- Embedding of `validate_unique_ids` (validate_catalog.py 61-67): duplicates
are acceptable, the function always returns no errors. -/
def validate_unique_ids (_c : Catalog) : List String := []

/-- The `id_map` of `validate_relationships`: the id sets for the three known
entity types; any other (or missing) type is not a key of the map. -/
def idMapLookup (c : Catalog) : Option String → Option (List String)
  | none => none
  | some t =>
    if t = "plugin" then some (c.plugins.map Plugin.plugin_id)
    else if t = "skill" then some (c.skills.map Skill.skill_id)
    else if t = "document" then some (c.documents.map Document.doc_id)
    else none

/-- Membership of an optional id in an id set (`source_id not in id_map[...]`;
a missing id is not a member). -/
def memOptId (o : Option String) (ids : List String) : Bool :=
  match o with
  | some s => ids.contains s
  | none => false

/-- The source-endpoint check of one relationship. -/
def relSourceErrors (c : Catalog) (rel : Relationship) : List String :=
  match idMapLookup c rel.source_type with
  | some ids =>
    if memOptId rel.source_id ids then []
    else ["Relationship references unknown " ++ pyShowOpt rel.source_type ++ ": " ++
      pyShowOpt rel.source_id]
  | none => []

/-- The target-endpoint check of one relationship. -/
def relTargetErrors (c : Catalog) (rel : Relationship) : List String :=
  match idMapLookup c rel.target_type with
  | some ids =>
    if memOptId rel.target_id ids then []
    else ["Relationship references unknown " ++ pyShowOpt rel.target_type ++ ": " ++
      pyShowOpt rel.target_id]
  | none => []

/-- Embedding of `validate_relationships` (validate_catalog.py 70-97): the
errors appended for each relationship in order. -/
def validate_relationships (c : Catalog) : List String :=
  (c.relationships.map fun rel => relSourceErrors c rel ++ relTargetErrors c rel).flatten

/-- The semantic validations run by `validate_catalog` (lines 53-58), in
order; `is_valid` requires this list (plus the schema errors) to be empty. -/
def semanticErrors (c : Catalog) : List String :=
  validate_unique_ids c ++ validate_relationships c ++ validate_id_format c

/-- C7 counterexample: a catalog whose only entity is a document with the
non-kebab id `BAD_ID` (uppercase and underscore). The claim says the
Validator reports an id-format error for it; the code's id-format check never
looks at document ids, so no semantic error is produced at all. -/
theorem validate_id_format_ignores_document_ids :
    kebab_match "BAD_ID" = false ∧
    validate_id_format ⟨[], [], [⟨"BAD_ID", "repo1"⟩], []⟩ = [] ∧
    semanticErrors ⟨[], [], [⟨"BAD_ID", "repo1"⟩], []⟩ = [] := by
  decide

/-- C7 (amended): the id-format check covers plugin and skill ids only — any
plugin or skill id failing the kebab pattern (an empty id or one with
uppercase fails it) produces an id-format error naming the id and makes the
semantic error list non-empty (validation fails), while document ids are
never format-checked (the check is invariant under any change of the
document list). -/
theorem validate_id_format_plugin_skill_only (c : Catalog) :
    (∀ p ∈ c.plugins, kebab_match p.plugin_id = false →
      ("Invalid plugin_id format: " ++ p.plugin_id) ∈ validate_id_format c ∧
      semanticErrors c ≠ []) ∧
    (∀ s ∈ c.skills, kebab_match s.skill_id = false →
      ("Invalid skill_id format: " ++ s.skill_id) ∈ validate_id_format c ∧
      semanticErrors c ≠ []) ∧
    (∀ docs : List Document,
      validate_id_format { c with documents := docs } = validate_id_format c) ∧
    kebab_match "" = false ∧ kebab_match "Not-Kebab" = false := by
  have hne : ∀ (c : Catalog), validate_id_format c ≠ [] → semanticErrors c ≠ [] := by
    intro c h hcontra
    have := List.append_eq_nil.mp hcontra
    exact h this.2
  refine ⟨?_, ?_, fun docs => rfl, by decide, by decide⟩
  · intro p hp hk
    have hmem : ("Invalid plugin_id format: " ++ p.plugin_id) ∈ validate_id_format c := by
      apply List.mem_append_left
      exact List.mem_filterMap.mpr ⟨p, hp, by simp [hk]⟩
    exact ⟨hmem, hne c (by intro hnil; rw [hnil] at hmem; simp at hmem)⟩
  · intro s hs hk
    have hmem : ("Invalid skill_id format: " ++ s.skill_id) ∈ validate_id_format c := by
      apply List.mem_append_right
      exact List.mem_filterMap.mpr ⟨s, hs, by simp [hk]⟩
    exact ⟨hmem, hne c (by intro hnil; rw [hnil] at hmem; simp at hmem)⟩

/-- Witness for the amended C7: a plugin id `BAD_ID` is flagged with an
id-format error and validation fails. -/
theorem validate_id_format_plugin_skill_only_witness :
    ("Invalid plugin_id format: " ++ "BAD_ID") ∈
      validate_id_format ⟨[⟨"BAD_ID", "repo1"⟩], [], [], []⟩ ∧
    semanticErrors ⟨[⟨"BAD_ID", "repo1"⟩], [], [], []⟩ ≠ [] := by
  have h := (validate_id_format_plugin_skill_only ⟨[⟨"BAD_ID", "repo1"⟩], [], [], []⟩).1
    ⟨"BAD_ID", "repo1"⟩ (by simp) (by decide)
  exact h

/-- C10: referential-integrity checking is restricted to the known entity
types. A relationship endpoint whose type is not `plugin`, `skill` or
`document` contributes no referential error regardless of its id, and a
relationship with two unrecognized types and dangling ids passes
`validate_relationships` entirely. -/
theorem validate_relationships_unknown_type (c : Catalog) (rel : Relationship) :
    (rel.source_type ≠ some "plugin" → rel.source_type ≠ some "skill" →
      rel.source_type ≠ some "document" → relSourceErrors c rel = []) ∧
    (rel.target_type ≠ some "plugin" → rel.target_type ≠ some "skill" →
      rel.target_type ≠ some "document" → relTargetErrors c rel = []) ∧
    (rel.source_type ≠ some "plugin" → rel.source_type ≠ some "skill" →
      rel.source_type ≠ some "document" →
     rel.target_type ≠ some "plugin" → rel.target_type ≠ some "skill" →
      rel.target_type ≠ some "document" →
      validate_relationships { c with relationships := [rel] } = []) := by
  have hmap : ∀ (o : Option String), o ≠ some "plugin" → o ≠ some "skill" →
      o ≠ some "document" → idMapLookup c o = none := by
    intro o h1 h2 h3
    match o with
    | none => rfl
    | some t =>
      have ht1 : t ≠ "plugin" := fun h => h1 (by rw [h])
      have ht2 : t ≠ "skill" := fun h => h2 (by rw [h])
      have ht3 : t ≠ "document" := fun h => h3 (by rw [h])
      simp [idMapLookup, ht1, ht2, ht3]
  have hsrc : rel.source_type ≠ some "plugin" → rel.source_type ≠ some "skill" →
      rel.source_type ≠ some "document" → relSourceErrors c rel = [] := by
    intro h1 h2 h3
    simp [relSourceErrors, hmap rel.source_type h1 h2 h3]
  have htgt : rel.target_type ≠ some "plugin" → rel.target_type ≠ some "skill" →
      rel.target_type ≠ some "document" → relTargetErrors c rel = [] := by
    intro h1 h2 h3
    simp [relTargetErrors, hmap rel.target_type h1 h2 h3]
  refine ⟨hsrc, htgt, ?_⟩
  intro h1 h2 h3 h4 h5 h6
  have hs := hsrc h1 h2 h3
  have ht := htgt h4 h5 h6
  have hs' : relSourceErrors { c with relationships := [rel] } rel = [] := hs
  have ht' : relTargetErrors { c with relationships := [rel] } rel = [] := ht
  simp [validate_relationships, hs', ht']

/-- Witness for C10: a relationship of unrecognized type `widget -> gadget`
with dangling ids contributes no referential error and passes validation. -/
theorem validate_relationships_unknown_type_witness :
    relSourceErrors ⟨[], [], [], []⟩
      ⟨some "widget", some "dangling", some "gadget", some "nowhere", some "uses", none⟩ = [] ∧
    validate_relationships ⟨[], [], [],
      [⟨some "widget", some "dangling", some "gadget", some "nowhere", some "uses", none⟩]⟩ = [] := by
  have h := validate_relationships_unknown_type ⟨[], [], [], []⟩
    ⟨some "widget", some "dangling", some "gadget", some "nowhere", some "uses", none⟩
  exact ⟨h.1 (by decide) (by decide) (by decide),
    h.2.2 (by decide) (by decide) (by decide) (by decide) (by decide) (by decide)⟩

/-! Embedding of `detect_collisions` (extract_catalog.py 411-454): one pass
per entity category over (id, source_repo) pairs in catalog order, keeping a
dict of the repo of each id's first occurrence; every later occurrence of an
id appends a Collision entry pairing the first occurrence's repo with the
current repo — the two repos are not compared. -/

/-- A collision report entry `{"type": ..., "id": ..., "repos": [...]}`
(`ctype` stands for the source's `type` key). -/
structure Collision where
  ctype : String
  id : String
  repos : List String
  deriving DecidableEq, Repr

/-- One category pass of `detect_collisions`; `sources` is the dict mapping
each id already seen to the repo of its first occurrence. -/
def detectGo (t : String) : List (String × String) → List (String × String) → List Collision
  | [], _ => []
  | (id, repo) :: rest, sources =>
    match List.lookup id sources with
    | some firstRepo => ⟨t, id, [firstRepo, repo]⟩ :: detectGo t rest sources
    | none => detectGo t rest ((id, repo) :: sources)

/-- The collision pass of one entity category. -/
def detectCat (t : String) (items : List (String × String)) : List Collision :=
  detectGo t items []

/-- Embedding of `detect_collisions`: plugins, then skills, then documents. -/
def detect_collisions (c : Catalog) : List Collision :=
  detectCat "plugin" (c.plugins.map fun p => (p.plugin_id, p.source_repo)) ++
  detectCat "skill" (c.skills.map fun s => (s.skill_id, s.source_repo)) ++
  detectCat "document" (c.documents.map fun d => (d.doc_id, d.source_repo))

/-- C6 counterexample: two plugins with the same id from the SAME repo. The
claim says a Collision entry is produced only when the later occurrence comes
from a different repo than the first, so this catalog should yield no entry;
the code compares nothing and emits one with `repos = [r1, r1]`. -/
theorem detect_collisions_same_repo :
    detect_collisions ⟨[⟨"a", "r1"⟩, ⟨"a", "r1"⟩], [], [], []⟩ =
      [⟨"plugin", "a", ["r1", "r1"]⟩] ∧
    detect_collisions ⟨[⟨"a", "r1"⟩, ⟨"a", "r1"⟩], [], [], []⟩ ≠ [] := by
  decide

/-- Amended collision behaviour, stated in the amended claim's words: per
entity category, scanning the items in snapshot order, every occurrence of an
id that already occurred earlier in the scan produces one Collision entry
pairing the repo of the id's first occurrence with the repo of the current
occurrence — whether or not the two repos differ. `before` is the list of
items already scanned. -/
def collisionSpecGo (t : String) :
    List (String × String) → List (String × String) → List Collision
  | [], _ => []
  | (id, repo) :: rest, before =>
    match before.find? (fun kv => kv.1 = id) with
    | some first => ⟨t, id, [first.2, repo]⟩ :: collisionSpecGo t rest (before ++ [(id, repo)])
    | none => collisionSpecGo t rest (before ++ [(id, repo)])

/-- The amended per-category collision specification. -/
def collisionSpec (t : String) (items : List (String × String)) : List Collision :=
  collisionSpecGo t items []

theorem lookup_eq_find?_map {β : Type} [DecidableEq β] (id : β) (l : List (β × String)) :
    List.lookup id l = (l.find? (fun kv => kv.1 = id)).map Prod.snd := by
  induction l with
  | nil => rfl
  | cons hd tl ih =>
    obtain ⟨k, v⟩ := hd
    by_cases h : id = k
    · subst h
      simp [List.lookup, List.find?]
    · have h' : ¬ k = id := fun hh => h hh.symm
      have hb : (id == k) = false := by simpa using h
      have hb' : (decide (k = id)) = false := by simpa using h'
      simp [List.lookup, List.find?, hb, hb', ih]

theorem detectGo_eq_collisionSpecGo (t : String) (items : List (String × String))
    (sources before : List (String × String))
    (hinv : ∀ id, List.lookup id sources =
      (before.find? (fun kv => kv.1 = id)).map Prod.snd) :
    detectGo t items sources = collisionSpecGo t items before := by
  induction items generalizing sources before with
  | nil => rfl
  | cons hd rest ih =>
    obtain ⟨id, repo⟩ := hd
    have hfind : ∀ id', (before ++ [(id, repo)]).find? (fun kv => kv.1 = id') =
        ((before.find? (fun kv => kv.1 = id')).or
          (List.find? (fun kv => kv.1 = id') [(id, repo)])) :=
      fun id' => List.find?_append
    cases hcase : List.lookup id sources with
    | some firstRepo =>
      have hb : before.find? (fun kv => kv.1 = id) ≠ none := by
        intro hnone
        rw [hinv id, hnone] at hcase
        simp at hcase
      obtain ⟨first, hfirst⟩ := Option.ne_none_iff_exists'.mp hb
      have hsnd : first.2 = firstRepo := by
        have := hinv id
        rw [hfirst, hcase] at this
        simpa using this.symm
      rw [show detectGo t ((id, repo) :: rest) sources =
          (⟨t, id, [firstRepo, repo]⟩ : Collision) :: detectGo t rest sources from by
        simp [detectGo, hcase]]
      rw [show collisionSpecGo t ((id, repo) :: rest) before =
          ⟨t, id, [first.2, repo]⟩ :: collisionSpecGo t rest (before ++ [(id, repo)]) from by
        simp [collisionSpecGo, hfirst]]
      rw [hsnd]
      congr 1
      apply ih
      intro id'
      rw [hinv id', hfind id']
      cases hcase' : before.find? (fun kv => kv.1 = id') with
      | some x => simp [hcase']
      | none =>
        have hne : id' ≠ id := by
          intro hh
          rw [hh, hfirst] at hcase'
          exact Option.noConfusion hcase'
        have hd2 : (decide (id = id')) = false := by
          simp
          exact fun hh => hne hh.symm
        simp [hcase', List.find?, hd2]
    | none =>
      have hb : before.find? (fun kv => kv.1 = id) = none := by
        have := hinv id
        rw [hcase] at this
        exact (Option.map_eq_none.mp this.symm)
      rw [show detectGo t ((id, repo) :: rest) sources =
          detectGo t rest ((id, repo) :: sources) from by
        simp [detectGo, hcase]]
      rw [show collisionSpecGo t ((id, repo) :: rest) before =
          collisionSpecGo t rest (before ++ [(id, repo)]) from by
        simp [collisionSpecGo, hb]]
      apply ih
      intro id'
      rw [hfind id', ]
      by_cases h : id' = id
      · subst h
        rw [hb]
        have hlk : List.lookup id' ((id', repo) :: sources) = some repo := by
          simp [List.lookup]
        rw [hlk]
        simp [List.find?]
      · have hb2 : (id' == id) = false := by simpa using h
        have hlk : List.lookup id' ((id, repo) :: sources) = List.lookup id' sources := by
          simp [List.lookup, hb2]
        rw [hlk, hinv id']
        cases hcase' : before.find? (fun kv => kv.1 = id') with
        | some x => simp [hcase']
        | none =>
          have hd2 : (decide (id = id')) = false := by
            simp
            exact fun hh => h hh.symm
          simp [hcase', List.find?, hd2]

/-- C6 (amended): the collision detector emits, per entity category, exactly
one Collision entry `{type, id, [first_repo, later_repo]}` for each occurrence
of an id after the first (in snapshot order), regardless of whether the later
occurrence's repo differs from the first occurrence's repo — same-repo
duplicates are reported too. -/
theorem detect_collisions_amended (c : Catalog) :
    detect_collisions c =
      collisionSpec "plugin" (c.plugins.map fun p => (p.plugin_id, p.source_repo)) ++
      collisionSpec "skill" (c.skills.map fun s => (s.skill_id, s.source_repo)) ++
      collisionSpec "document" (c.documents.map fun d => (d.doc_id, d.source_repo)) := by
  unfold detect_collisions collisionSpec detectCat
  rw [detectGo_eq_collisionSpecGo "plugin" _ [] [] (fun id => rfl),
    detectGo_eq_collisionSpecGo "skill" _ [] [] (fun id => rfl),
    detectGo_eq_collisionSpecGo "document" _ [] [] (fun id => rfl)]

/-! Embedding of the identifier derivation of `extract_document`
(extract_catalog.py 301-341), with `to_kebab_case` (92-96), the filename
pattern `DOC_PATTERN` (line 43) and `DOC_TYPE_MAP` (27-40). The fallback id
uses Python's built-in `hash` on the relative path; CPython salts string
hashing per process (PYTHONHASHSEED), so the hash is a parameter `pyHash` of
the embedding: a fixed run has one `pyHash`, two runs in distinct processes
generally have different ones. -/

/-- The class `\s` of the `to_kebab_case` substitutions (ASCII whitespace). -/
def isReSpace (c : Char) : Bool :=
  c = ' ' || c = '\t' || c = '\n' || c = '\r' || c = '\x0b' || c = '\x0c'

/-- Characters kept by `re.sub(r"[^a-zA-Z0-9\s-]", "", s)`. -/
def keptByFirstSub (c : Char) : Bool :=
  c.isAlpha || c.isDigit || isReSpace c || c = '-'

/-- Model of `re.sub(r"[\s_]+", "-", s)`: each maximal run of whitespace or
underscores becomes a single dash (`inRun` tracks being inside a run). -/
def collapseWsRuns : Bool → List Char → List Char
  | _, [] => []
  | inRun, c :: rest =>
    if isReSpace c || c = '_' then
      if inRun then collapseWsRuns true rest
      else '-' :: collapseWsRuns true rest
    else c :: collapseWsRuns false rest

/-- Model of `str.strip("-")`. -/
def stripDashes (cs : List Char) : List Char :=
  ((cs.dropWhile (fun c => c = '-')).reverse.dropWhile (fun c => c = '-')).reverse

/-- Embedding of `to_kebab_case`: drop characters outside `[a-zA-Z0-9\s-]`,
collapse whitespace/underscore runs to dashes, lowercase, strip dashes. -/
def to_kebab_case (s : String) : String :=
  String.mk (stripDashes ((collapseWsRuns false (s.toList.filter keptByFirstSub)).map
    Char.toLower))

/-- Model of `pathlib`'s `Path(...).stem`: the name without its final suffix;
the suffix is `name[i:]` for the last dot index `i` when `0 < i < len - 1`. -/
def pathStem (name : String) : String :=
  let cs := name.toList
  let dots := (List.range cs.length).filter (fun i => cs.getD i ' ' = '.')
  match dots.getLast? with
  | some i => if 0 < i ∧ i < cs.length - 1 then String.mk (cs.take i) else name
  | none => name

/-- The slug-and-extension tail of `DOC_PATTERN`: the greedy `(.+)\.md$`
requires the name to end in `.md` with a nonempty, newline-free slug before
it (the regex `.` does not match a newline). -/
def splitSlug (cs : List Char) : Option String :=
  if 4 ≤ cs.length then
    if cs.drop (cs.length - 3) = ['.', 'm', 'd'] &&
        (cs.take (cs.length - 3)).all (fun c => !(c = '\n')) then
      some (String.mk (cs.take (cs.length - 3)))
    else none
  else none

/-- Embedding of `DOC_PATTERN.match`:
`^(\d{3})-([A-Z]{2})-([A-Z]{4})-(.+)\.md$`, returning
(sequence, category, code, slug). -/
def docPatternMatch (name : String) : Option (String × String × String × String) :=
  match name.toList with
  | d1 :: d2 :: d3 :: h1 :: u1 :: u2 :: h2 :: v1 :: v2 :: v3 :: v4 :: h3 :: rest =>
    if d1.isDigit && d2.isDigit && d3.isDigit && h1 = '-' &&
        u1.isUpper && u2.isUpper && h2 = '-' &&
        v1.isUpper && v2.isUpper && v3.isUpper && v4.isUpper && h3 = '-' then
      match splitSlug rest with
      | some slug =>
        some (String.mk [d1, d2, d3], String.mk [u1, u2], String.mk [v1, v2, v3, v4], slug)
      | none => none
    else none
  | _ => none

/-- `DOC_TYPE_MAP` (extract_catalog.py 27-40). -/
def DOC_TYPE_MAP : List (String × String) :=
  [("OD-ARCH", "architecture"), ("PP-PLAN", "planning"), ("PP-PRD", "spec"),
   ("PP-ARD", "decision"), ("AA-AACR", "report"), ("AA-AUDT", "audit"),
   ("DR-STND", "spec"), ("DR-GUID", "guide"), ("OD-REF", "reference"),
   ("OD-STAT", "report"), ("MC-MEMO", "report"), ("UC-CASE", "use_case")]

/-- `DOC_TYPE_MAP.get(category_code, "unknown")`. -/
def doc_type_of (category_code : String) : String :=
  (List.lookup category_code DOC_TYPE_MAP).getD "unknown"

/-- Zero-padding of the Python format `{...:04d}` for a value below 10000. -/
def pad4 (n : Nat) : String :=
  let s := toString n
  if s.length < 4 then String.mk (List.replicate (4 - s.length) '0') ++ s else s

/-- Embedding of the id/category/type derivation of `extract_document`:
a filename matching `DOC_PATTERN` reassembles the id from the captures; any
other filename kebab-cases its stem, falling back to
`f"doc-{hash(rel_path) % 10000:04d}"` when the kebab form is empty. Python's
`%` on a possibly negative hash is the Euclidean remainder (`Int.emod`).
Title extraction reads the file body deterministically and does not touch the
id; it is omitted here. Returns (doc_id, category_code, doc_type). -/
def extract_document_id (pyHash : String → Int) (rel_path : String)
    (filename : String) : String × String × String :=
  match docPatternMatch filename with
  | some (seq, cat1, code, slug) =>
    (seq ++ "-" ++ cat1 ++ "-" ++ code ++ "-" ++ slug, cat1 ++ "-" ++ code,
     doc_type_of (cat1 ++ "-" ++ code))
  | none =>
    let did := to_kebab_case (pathStem filename)
    (if did.isEmpty then "doc-" ++ pad4 ((pyHash rel_path).emod 10000).toNat else did,
     "", "unknown")

/-- C5: the fallback document id depends on the process's string-hash salt.
The document `000-docs/_.md` (its stem `_` kebab-cases to the empty string,
so no slug can be derived) gets `doc-0000` under one hash function and
`doc-0001` under another: two extraction runs whose processes salt `hash`
differently produce different `doc_id`s for the same byte-identical content,
contradicting the determinism contract (and the script's own "Deterministic
extraction" docstring; spec §9 flags exactly this fallback). A filename whose
stem kebab-cases to a nonempty id is hash-independent (last conjunct). -/
theorem extract_document_id_hash_dependent :
    extract_document_id (fun _ => 0) "000-docs/_.md" "_.md" = ("doc-0000", "", "unknown") ∧
    extract_document_id (fun _ => 1) "000-docs/_.md" "_.md" = ("doc-0001", "", "unknown") ∧
    extract_document_id (fun _ => 0) "000-docs/_.md" "_.md" ≠
      extract_document_id (fun _ => 1) "000-docs/_.md" "_.md" ∧
    extract_document_id (fun _ => 0) "000-docs/notes.md" "notes.md" =
      extract_document_id (fun _ => 1) "000-docs/notes.md" "notes.md" := by
  refine ⟨by decide, by decide, by decide, by decide⟩

end IntentCatalog
